import Mathlib

/-!
Shallow embedding of the morphometric core of the DegradationRate-and-BvTv
notebook (src/Code.ipynb): label filtering, voxel counting via a dense
histogram, axis-adjacent contact counting in 3D and 2D, distance-transform
ROI masking, and the `Sample` derived quantities built from them.

Volumes are nested lists of integer labels, outermost axis Z (the slice
stack), then Y (rows), then X (columns), matching the numpy index order
`image[z, y, x]` used throughout the notebook.
-/

namespace DegBvTv

/-- A 2D slice: a list of rows, each row a list of integer labels. -/
abbrev Slice := List (List ℤ)

/-- A 3D volume: a list of 2D slices (numpy axis order Z, Y, X). -/
abbrev Vol := List Slice

/-- All voxel values of a slice, in row-major order. -/
def sliceVals (s : Slice) : List ℤ := s.flatten

/-- All voxel values of a volume. -/
def volVals (v : Vol) : List ℤ := (v.map sliceVals).flatten

/-! ## Histogram model

`skimage.exposure.histogram` on an integer image returns a dense bincount
over the inclusive value range `[image.min(), image.max()]`: component 0 is
the per-bin count array and component 1 the bin centers
`arange(min, max + 1)`.  We model the bin-center membership test and the
count array separately. -/

/-- Bin centers of the skimage histogram of a value list: `some (mn, mx)`
for a nonempty list with minimum `mn` and maximum `mx` (the centers are all
integers of `[mn, mx]`), `none` for an empty image (skimage fails there). -/
def histRange (vals : List ℤ) : Option (ℤ × ℤ) :=
  match vals.min?, vals.max? with
  | some mn, some mx => some (mn, mx)
  | _, _ => none

/-- Membership of `l` in the histogram's bin centers, i.e. the test
`l in histogram[1]` from the notebook: true iff the image is nonempty and
`image.min() ≤ l ≤ image.max()`. -/
def labelInHist (vals : List ℤ) (l : ℤ) : Bool :=
  match histRange vals with
  | some (mn, mx) => decide (mn ≤ l ∧ l ≤ mx)
  | none => false

/-- The dense count array `histogram[0]`: position `k` holds the number of
voxels with value `mn + k`, for `0 ≤ k ≤ mx - mn`. -/
def histCounts (vals : List ℤ) : Option (ℤ × List ℕ) :=
  match histRange vals with
  | some (mn, mx) =>
      some (mn, (List.range ((mx - mn).toNat + 1)).map
        (fun k : ℕ => vals.count (mn + (k : ℤ))))
  | none => none

/-- `count_voxels_per_label(image, label)` from the notebook: looks up the
label among the histogram bin centers with `np.where(histogram[1]==label)`
and returns the bin count at the found index.  When the label is not among
the bin centers the positional lookup `[0][0]` fails with an IndexError,
which we model as an `Except.error`. -/
def count_voxels_per_label (v : Vol) (label : ℤ) : Except String ℕ :=
  match histCounts (volVals v) with
  | none => .error "histogram of empty image"
  | some (mn, counts) =>
      if mn ≤ label ∧ label < mn + counts.length then
        .ok (counts.getD (label - mn).toNat 0)
      else
        .error "IndexError: label not among histogram bin centers"

/-! ## Contact counting

`contact_area` compares the volume against its forward shift along each of
the three axes, in both label orders, and sums the counts of matching
positions; `contact_area_layer` does the same for a single 2D slice with
the two in-slice axes.  A shifted comparison such as
`image[:, :, :-1] == label1 ∧ image[:, :, 1:] == label2` is modelled by
zipping a list with its own tail and counting matches. -/

/-- Indicator of an ordered voxel pair carrying the ordered label pair. -/
def indPair (l1 l2 : ℤ) (p : ℤ × ℤ) : ℕ :=
  if p.1 = l1 ∧ p.2 = l2 then 1 else 0

/-- Number of aligned positions where `xs` carries `l1` and `ys` carries
`l2` (the count of an elementwise `logical_and` of two comparisons). -/
def matchCount (l1 l2 : ℤ) (xs ys : List ℤ) : ℕ :=
  ((xs.zip ys).map (indPair l1 l2)).sum

/-- Matches of `image[:, :, :-1] == l1 ∧ image[:, :, 1:] == l2`:
within-row forward pairs along X. -/
def xContact (l1 l2 : ℤ) (v : Vol) : ℕ :=
  (v.map (fun s => (s.map (fun row => matchCount l1 l2 row row.tail)).sum)).sum

/-- Matches of `image[:, :-1, :] == l1 ∧ image[:, 1:, :] == l2`:
within-slice forward pairs along Y. -/
def yContact (l1 l2 : ℤ) (v : Vol) : ℕ :=
  (v.map (fun s => ((s.zip s.tail).map (fun p => matchCount l1 l2 p.1 p.2)).sum)).sum

/-- Matches of `image[:-1, :, :] == l1 ∧ image[1:, :, :] == l2`:
cross-slice forward pairs along Z. -/
def zContact (l1 l2 : ℤ) (v : Vol) : ℕ :=
  ((v.zip v.tail).map (fun p => ((p.1.zip p.2).map (fun rr => matchCount l1 l2 rr.1 rr.2)).sum)).sum

/-- `contact_area(image, label1, label2)` from the notebook: raises a
ValueError when either label is missing from the histogram bin centers,
otherwise sums the six forward-shift comparisons (three axes, both label
orders). -/
def contact_area (v : Vol) (label1 label2 : ℤ) : Except String ℕ :=
  if labelInHist (volVals v) label1 && labelInHist (volVals v) label2 then
    .ok (xContact label1 label2 v + xContact label2 label1 v
         + yContact label1 label2 v + yContact label2 label1 v
         + zContact label1 label2 v + zContact label2 label1 v)
  else
    .error "One or more labels do not exist. Please input valid labels."

/-- In-row forward pairs along X of a single 2D slice
(`image[:, :-1] == l1 ∧ image[:, 1:] == l2`). -/
def xContactLayer (l1 l2 : ℤ) (s : Slice) : ℕ :=
  (s.map (fun row => matchCount l1 l2 row row.tail)).sum

/-- Cross-row forward pairs along Y of a single 2D slice
(`image[:-1, :] == l1 ∧ image[1:, :] == l2`). -/
def yContactLayer (l1 l2 : ℤ) (s : Slice) : ℕ :=
  ((s.zip s.tail).map (fun p => matchCount l1 l2 p.1 p.2)).sum

/-- `contact_area_layer(image, label1, label2)` from the notebook: the 2D
variant of `contact_area`, restricted to the two in-slice axes. -/
def contact_area_layer (s : Slice) (label1 label2 : ℤ) : Except String ℕ :=
  if labelInHist (sliceVals s) label1 && labelInHist (sliceVals s) label2 then
    .ok (xContactLayer label1 label2 s + xContactLayer label2 label1 s
         + yContactLayer label1 label2 s + yContactLayer label2 label1 s)
  else
    .error "One or more labels do not exist. Please input valid labels."

/-! ## ROI masking

`create_roi_mask` binarises the reference (`ref_img > 0`), computes, slice
by slice, the Euclidean distance transform of the complement (for each
pixel, the distance to the nearest positive reference pixel of the same
slice), stores it into a shared `uint16` buffer (truncating the float
distance to its integer part modulo 2^16), keeps the pixels with
`distance < round(roi_size / pixel_size)`, and overwrites all other pixels
of the target with `mask_pixel_value`. -/

/-- Python's built-in `round`: round half to even. -/
def pyRound (q : ℚ) : ℤ :=
  if q - ⌊q⌋ < 1/2 then ⌊q⌋
  else if (1:ℚ)/2 < q - ⌊q⌋ then ⌊q⌋ + 1
  else if ⌊q⌋ % 2 = 0 then ⌊q⌋ else ⌊q⌋ + 1

/-- Coordinates `(row, col)` of the positive pixels of a slice (the true
positions of `ref_img > 0`). -/
def posCells (s : Slice) : List (ℕ × ℕ) :=
  (s.enum.map (fun rr =>
    rr.2.enum.filterMap (fun cv => if 0 < cv.2 then some (rr.1, cv.1) else none))).flatten

/-- Squared Euclidean distance between two pixel coordinates. -/
def sqCellDist (p q : ℕ × ℕ) : ℕ :=
  (((p.1 : ℤ) - q.1) * ((p.1 : ℤ) - q.1)
    + ((p.2 : ℤ) - q.2) * ((p.2 : ℤ) - q.2)).toNat

/-- Fuel-based integer square root: counts up while the next square still
fits.  Proven equal to `Nat.sqrt` below; spelled out structurally so that
the kernel can evaluate it on concrete inputs. -/
def isqrtGo (n : ℕ) : ℕ → ℕ → ℕ
  | 0, acc => acc
  | fuel + 1, acc => if (acc + 1) * (acc + 1) ≤ n then isqrtGo n fuel (acc + 1) else acc

/-- The integer part of the square root (the value a float truncation of
`sqrt` produces on an exact integer radicand). -/
def isqrt (n : ℕ) : ℕ := isqrtGo n n 0

/-- The ROI membership test of one pixel: the slice's Euclidean distance
map entry at `(r, c)` — the float distance truncated into the `uint16`
buffer — compared against the mask size.  When the reference slice has no
positive pixel scipy's distance transform output is not meaningful; the
pixel is treated as outside the ROI (the theorems below only consider
slices with at least one positive reference pixel). -/
def roiIncluded (refSlice : Slice) (m : ℤ) (r c : ℕ) : Bool :=
  match ((posCells refSlice).map (fun p => sqCellDist (r, c) p)).min? with
  | some d => decide (((isqrt d % 65536 : ℕ) : ℤ) < m)
  | none => false

/-- One row of the boolean-mask application `target[~roi_mask] = fill`:
position `c` keeps its value when included and becomes `fill` otherwise. -/
def maskRow (inc : ℕ → Bool) (fill : ℤ) (row : List ℤ) : List ℤ :=
  row.enum.map (fun cv => if inc cv.1 then cv.2 else fill)

/-- One slice of the boolean-mask application, inclusion decided by the
distance map of the corresponding reference slice. -/
def maskSlice (rs : Slice) (m fill : ℤ) (s : Slice) : Slice :=
  s.enum.map (fun rr => maskRow (roiIncluded rs m rr.1) fill rr.2)

/-- The stack-level boolean-mask application for an already computed
integer mask size. -/
def maskVol (ref_img target_img : Vol) (mask_size fill : ℤ) : Vol :=
  target_img.enum.map (fun p =>
    maskSlice (ref_img.getD p.1 []) mask_size fill p.2)

/-- `create_roi_mask(ref_img, target_img, roi_size, pixel_size,
mask_pixel_value, img_size)` from the notebook, as a function on values:
the voxel at `(z, r, c)` keeps its target value when it is inside the ROI
of reference slice `z` and becomes `mask_pixel_value` otherwise.  The
`img_size` argument only sizes the shared 2D distance buffer (numpy fails
on a shape mismatch; the theorems assume all slices have that shape).
Python mutates `target_img` in place and returns it; the `Sample` methods
below account for that mutation explicitly. -/
def create_roi_mask (ref_img target_img : Vol) (roi_size pixel_size : ℚ)
    (mask_pixel_value : ℤ) (img_size : ℕ × ℕ) : Vol :=
  let _ := img_size
  maskVol ref_img target_img (pyRound (roi_size / pixel_size)) mask_pixel_value

/-! ## Label filtering -/

/-- `filter_labels(image, labels)` from the notebook: keep the voxels whose
value is one of the requested labels, zero out everything else. -/
def filter_labels (v : Vol) (labels : List ℤ) : Vol :=
  v.map (fun s => s.map (fun row => row.map (fun x => if x ∈ labels then x else 0)))

/-! ## Sample -/

/-- The five label roles of the notebook's `label_dict`. -/
structure LabelDict where
  background : ℤ
  screw : ℤ
  screw_ref : ℤ
  degradation_layer : ℤ
  bone : ℤ

/-- The `Sample` state: the two loaded volumes plus calibration metadata.
Image loading is out of scope; a `Sample` is built directly from its
volumes. -/
structure Sample where
  name : String
  num_days : ℚ
  pixel_size : ℚ
  ref_image : Vol
  target_image : Vol
  label_dict : LabelDict
  img_size : ℕ × ℕ

/-- Positional indexing of a numpy count array with a Python integer:
in-bounds nonnegative indices and negative wraparound indices succeed,
anything else raises an IndexError. -/
def pyIndex (counts : List ℕ) (i : ℤ) : Except String ℕ :=
  if 0 ≤ i ∧ i < counts.length then .ok (counts.getD i.toNat 0)
  else if -(counts.length : ℤ) ≤ i ∧ i < 0 then .ok (counts.getD (i + counts.length).toNat 0)
  else .error "IndexError: index out of bounds"

/-- The masked stack built by `get_bone_volume_to_total_volume`: the ROI
mask from the reference applied to the target, filling with the screw
label. -/
def bvtvMasked (s : Sample) (roi_size : ℚ) : Vol :=
  create_roi_mask s.ref_image s.target_image roi_size s.pixel_size s.label_dict.screw s.img_size

/-- The ratio part of `get_bone_volume_to_total_volume`, applied to the
already-masked stack: `v_bone` and the background count are read from the
histogram count array by positional indexing with the raw label codes.
The quotient `v_bone / v_roi` is a numpy `int64 / int64` true division:
when `v_roi = 0` it silently yields NaN (modelled as `Except.ok none`)
instead of raising. -/
def bvtvRatio (masked : Vol) (ld : LabelDict) : Except String (Option ℚ) :=
  match histCounts (volVals masked) with
  | none => .error "histogram of empty image"
  | some (_, counts) => do
      let v_bone ← pyIndex counts ld.bone
      let v_bg ← pyIndex counts ld.background
      let v_roi := v_bone + v_bg
      if v_roi = 0 then pure none
      else pure (some ((v_bone : ℚ) / (v_roi : ℚ)))

/-- `Sample.get_bone_volume_to_total_volume(roi_size)` from the notebook.
It passes `self.target_image` itself into `create_roi_mask`, which
overwrites it in place, so the method returns the BV/TV result together
with the updated `Sample` state. -/
def get_bone_volume_to_total_volume (s : Sample) (roi_size : ℚ) :
    Except String (Option ℚ) × Sample :=
  (bvtvRatio (bvtvMasked s roi_size) s.label_dict,
   { s with target_image := bvtvMasked s roi_size })

/-- Elementwise sum of two congruent volumes (`screw_bone + screw`). -/
def volAdd (v w : Vol) : Vol :=
  (v.zip w).map (fun p =>
    (p.1.zip p.2).map (fun rr => (rr.1.zip rr.2).map (fun xy => xy.1 + xy.2)))

/-- `Sample.get_BIC_images(use_roi)` from the notebook: the screw volume
(screw and degradation layer merged into the screw code) and the
screw-plus-bone volume, optionally restricted to a 1000 µm ROI around the
reference with background fill.  `filter_labels` allocates fresh arrays,
so unlike `get_bone_volume_to_total_volume` this never touches the
sample's own volumes. -/
def get_BIC_images (s : Sample) (use_roi : Bool) : Vol × Vol :=
  let screw0 := filter_labels s.target_image [s.label_dict.screw, s.label_dict.degradation_layer]
  let screw := screw0.map (fun sl => sl.map (fun row => row.map (fun x =>
    if x = s.label_dict.degradation_layer then s.label_dict.screw else x)))
  let screw_bone := volAdd (filter_labels s.target_image [s.label_dict.bone]) screw
  if use_roi then
    (create_roi_mask s.ref_image screw 1000 s.pixel_size s.label_dict.background s.img_size,
     create_roi_mask s.ref_image screw_bone 1000 s.pixel_size s.label_dict.background s.img_size)
  else
    (screw, screw_bone)

/-- `Sample.get_bone_to_implant_contact()` from the notebook: the ratio of
screw–bone contact to screw–background contact on the ROI-masked derived
volumes.  The two contact counts are Python ints, so a zero denominator
raises ZeroDivisionError. -/
def get_bone_to_implant_contact (s : Sample) : Except String ℚ :=
  let imgs := get_BIC_images s true
  do
    let contact_implant_bone ← contact_area imgs.2 s.label_dict.screw s.label_dict.bone
    let contact_background_implant ← contact_area imgs.1 s.label_dict.screw s.label_dict.background
    if contact_background_implant = 0 then
      Except.error "ZeroDivisionError: division by zero"
    else
      pure ((contact_implant_bone : ℚ) / (contact_background_implant : ℚ))

/-! ## Specification-side formulations

These definitions follow the wording of the specification rather than the
code, for the refinement statements below. -/

/-- The voxel of a volume at coordinates `(z, r, c)` (0 outside bounds;
the theorems quantify only over in-bound coordinates). -/
def vox (v : Vol) (i r c : ℕ) : ℤ := ((v.getD i []).getD r []).getD c 0

/-- A volume is a rectangular Z×Y×X array. -/
def IsRect (v : Vol) (Z Y X : ℕ) : Prop :=
  v.length = Z ∧ ∀ i < Z, (v.getD i []).length = Y ∧
    ∀ r < Y, ((v.getD i []).getD r []).length = X

instance (v : Vol) (Z Y X : ℕ) : Decidable (IsRect v Z Y X) := by
  unfold IsRect; infer_instance

/-- Spec-side count of within-bounds axis-adjacent voxel pairs of a Z×Y×X
volume whose first voxel carries `a` and whose forward neighbour along
+X, +Y or +Z carries `b`: the compared coordinate ranges shrink by one
along the shifted axis, with no wraparound and no padding. -/
def specForward (v : Vol) (Z Y X : ℕ) (a b : ℤ) : ℕ :=
  (∑ i in Finset.range Z, ∑ r in Finset.range Y, ∑ c in Finset.range (X - 1),
      indPair a b (vox v i r c, vox v i r (c + 1)))
  + (∑ i in Finset.range Z, ∑ r in Finset.range (Y - 1), ∑ c in Finset.range X,
      indPair a b (vox v i r c, vox v i (r + 1) c))
  + (∑ i in Finset.range (Z - 1), ∑ r in Finset.range Y, ∑ c in Finset.range X,
      indPair a b (vox v i r c, vox v (i + 1) r c))

/-- Spec-side membership of a label in the volume's histogram bin centers:
some observed value is at most `l` and some observed value is at least
`l` (equivalently, `min ≤ l ≤ max` with the volume nonempty). -/
def inBinRange (vals : List ℤ) (l : ℤ) : Prop :=
  (∃ x ∈ vals, x ≤ l) ∧ ∃ y ∈ vals, l ≤ y

/-- Spec-side region-of-interest membership of pixel `(r, c)` for a
reference slice: the 2D Euclidean distance from the pixel to the nearest
positive pixel of the slice is strictly below the mask size `m`
(equivalently, `m` is positive and some positive pixel is at squared
distance below `m ^ 2`). -/
def specInROI (s : Slice) (m : ℤ) (r c : ℕ) : Prop :=
  0 < m ∧ ∃ r' : ℕ, ∃ c' : ℕ, ∃ row : List ℤ, ∃ w : ℤ,
    s[r']? = some row ∧ row[c']? = some w ∧ 0 < w ∧
    ((r : ℤ) - r') ^ 2 + ((c : ℤ) - c') ^ 2 < m ^ 2

instance (vals : List ℤ) (l : ℤ) : Decidable (inBinRange vals l) := by
  unfold inBinRange; infer_instance

instance {ε α : Type _} [DecidableEq ε] [DecidableEq α] : DecidableEq (Except ε α)
  | .ok a, .ok b => if h : a = b then .isTrue (by rw [h]) else .isFalse (by simp [h])
  | .error e, .error f => if h : e = f then .isTrue (by rw [h]) else .isFalse (by simp [h])
  | .ok _, .error _ => .isFalse (by simp)
  | .error _, .ok _ => .isFalse (by simp)

/-! ## Concrete instances used by the example claims and the bug reports -/

/-- The spec's example target: a 5×5×5 cube, all voxels labeled 1 except
one full boundary face (the first slice) labeled 0. -/
def boundaryFaceCube : Vol :=
  List.replicate 5 (List.replicate 5 (0 : ℤ)) ::
    List.replicate 4 (List.replicate 5 (List.replicate 5 (1 : ℤ)))

/-- Standard label roles used by the concrete samples below. -/
def stdLabels : LabelDict :=
  { background := 0, screw := 1, screw_ref := 2, degradation_layer := 4, bone := 3 }

/-- A sample whose target has two voxels outside the 1 µm ROI of its
reference: used to exhibit the in-place mutation of `target_image` by
`get_bone_volume_to_total_volume`. -/
def sampleMut : Sample :=
  { name := "mut", num_days := 28, pixel_size := 1,
    ref_image := [[[1, 0, 0]]], target_image := [[[3, 3, 3]]],
    label_dict := stdLabels, img_size := (1, 3) }

/-- A sample whose ROI-masked target counts zero voxels at both positional
histogram lookups (labels `background = 3`, `bone = 4`; masked values 0
and 5): the BV/TV denominator is zero. -/
def sampleNaN : Sample :=
  { name := "nan", num_days := 28, pixel_size := 1,
    ref_image := [[[1, 1]]], target_image := [[[0, 5]]],
    label_dict := { background := 3, screw := 1, screw_ref := 2,
                    degradation_layer := 0, bone := 4 },
    img_size := (1, 2) }

/-- A sample whose masked target has minimum voxel value 1, so the
positional histogram lookups of `get_bone_volume_to_total_volume` read
shifted bins. -/
def sampleShifted : Sample :=
  { name := "shifted", num_days := 28, pixel_size := 1,
    ref_image := [[[1, 1, 1, 1, 1]]], target_image := [[[1, 2, 3, 4, 5]]],
    label_dict := stdLabels, img_size := (1, 5) }

/-- A sample whose masked target has minimum voxel value 0, so the
positional histogram lookups are aligned with the label codes. -/
def sampleAligned : Sample :=
  { name := "aligned", num_days := 28, pixel_size := 1,
    ref_image := [[[1, 1]]], target_image := [[[0, 3]]],
    label_dict := stdLabels, img_size := (1, 2) }

end DegBvTv

namespace DegBvTv

/-! # Helper lemmas -/

theorem min?_spec {α : Type _} [LinearOrder α] {l : List α} (h : l ≠ []) :
    ∃ m, l.min? = some m ∧ m ∈ l ∧ ∀ x ∈ l, m ≤ x := by
  haveI : Std.Antisymm ((· : α) ≤ ·) := ⟨fun h1 h2 => le_antisymm h1 h2⟩
  obtain ⟨a, t, rfl⟩ := List.exists_cons_of_ne_nil h
  refine ⟨(a :: t).min?.getD a, ?_⟩
  have hsome : (a :: t).min? = some ((a :: t).min?.getD a) := by
    cases hmt : (a :: t).min? with
    | none => simp at hmt
    | some m => simp
  refine ⟨hsome, ?_⟩
  have := (List.min?_eq_some_iff le_refl min_choice (fun _ _ _ => le_min_iff)).mp hsome
  exact this

theorem max?_spec {α : Type _} [LinearOrder α] {l : List α} (h : l ≠ []) :
    ∃ m, l.max? = some m ∧ m ∈ l ∧ ∀ x ∈ l, x ≤ m := by
  haveI : Std.Antisymm ((· : α) ≤ ·) := ⟨fun h1 h2 => le_antisymm h1 h2⟩
  obtain ⟨a, t, rfl⟩ := List.exists_cons_of_ne_nil h
  refine ⟨(a :: t).max?.getD a, ?_⟩
  have hsome : (a :: t).max? = some ((a :: t).max?.getD a) := by
    cases hmt : (a :: t).max? with
    | none => simp at hmt
    | some m => simp
  refine ⟨hsome, ?_⟩
  have := (List.max?_eq_some_iff le_refl max_choice (fun _ _ _ => max_le_iff)).mp hsome
  exact this

theorem labelInHist_iff (vals : List ℤ) (l : ℤ) :
    labelInHist vals l = true ↔ inBinRange vals l := by
  rcases eq_or_ne vals [] with rfl | hne
  · simp [labelInHist, histRange, inBinRange]
  · obtain ⟨mn, hmn, hmnMem, hmnLe⟩ := min?_spec hne
    obtain ⟨mx, hmx, hmxMem, hmxLe⟩ := max?_spec hne
    simp only [labelInHist, histRange, hmn, hmx, decide_eq_true_eq, inBinRange]
    constructor
    · rintro ⟨h1, h2⟩
      exact ⟨⟨mn, hmnMem, h1⟩, ⟨mx, hmxMem, h2⟩⟩
    · rintro ⟨⟨x, hx, hxl⟩, ⟨y, hy, hly⟩⟩
      exact ⟨le_trans (hmnLe x hx) hxl, le_trans hly (hmxLe y hy)⟩

theorem labelInHist_of_mem {vals : List ℤ} {a : ℤ} (h : a ∈ vals) :
    labelInHist vals a = true :=
  (labelInHist_iff vals a).mpr ⟨⟨a, h, le_refl a⟩, ⟨a, h, le_refl a⟩⟩

theorem sum_map_eq_range {α : Type _} (f : α → ℕ) (d : α) (l : List α) :
    (l.map f).sum = ∑ i in Finset.range l.length, f (l.getD i d) := by
  induction l with
  | nil => simp
  | cons a t ih =>
      simp only [List.map_cons, List.sum_cons, List.length_cons, Finset.sum_range_succ',
        List.getD_cons_succ, List.getD_cons_zero, ih]
      omega

theorem sum_map_zip {α : Type _} (g : α × α → ℕ) (d : α) :
    ∀ xs ys : List α, ((xs.zip ys).map g).sum
      = ∑ j in Finset.range (min xs.length ys.length), g (xs.getD j d, ys.getD j d) := by
  intro xs
  induction xs with
  | nil => intro ys; simp
  | cons x xs ih =>
      intro ys
      cases ys with
      | nil => simp
      | cons y ys =>
          simp only [List.zip_cons_cons, List.map_cons, List.sum_cons, List.length_cons,
            Nat.succ_min_succ, Finset.sum_range_succ', List.getD_cons_succ,
            List.getD_cons_zero, ih ys]
          omega

theorem getD_tail {α : Type _} (l : List α) (d : α) (j : ℕ) :
    l.tail.getD j d = l.getD (j + 1) d := by
  cases l <;> simp [List.getD_cons_succ]

/-! ## From the shifted-array comparisons to indexed sums -/

theorem xContact_eq (v : Vol) (Z Y X : ℕ) (h : IsRect v Z Y X) (l1 l2 : ℤ) :
    xContact l1 l2 v
      = ∑ i in Finset.range Z, ∑ r in Finset.range Y, ∑ c in Finset.range (X - 1),
          indPair l1 l2 (vox v i r c, vox v i r (c + 1)) := by
  obtain ⟨hZ, hslice⟩ := h
  unfold xContact
  rw [sum_map_eq_range _ ([] : Slice), hZ]
  refine Finset.sum_congr rfl fun i hi => ?_
  rw [Finset.mem_range] at hi
  obtain ⟨hY, hrow⟩ := hslice i hi
  rw [sum_map_eq_range _ ([] : List ℤ), hY]
  refine Finset.sum_congr rfl fun r hr => ?_
  rw [Finset.mem_range] at hr
  unfold matchCount
  rw [sum_map_zip _ (0 : ℤ), List.length_tail, hrow r hr,
    Nat.min_eq_right (Nat.sub_le _ _)]
  refine Finset.sum_congr rfl fun c _ => ?_
  rw [getD_tail]
  rfl

theorem yContact_eq (v : Vol) (Z Y X : ℕ) (h : IsRect v Z Y X) (l1 l2 : ℤ) :
    yContact l1 l2 v
      = ∑ i in Finset.range Z, ∑ r in Finset.range (Y - 1), ∑ c in Finset.range X,
          indPair l1 l2 (vox v i r c, vox v i (r + 1) c) := by
  obtain ⟨hZ, hslice⟩ := h
  unfold yContact
  rw [sum_map_eq_range _ ([] : Slice), hZ]
  refine Finset.sum_congr rfl fun i hi => ?_
  rw [Finset.mem_range] at hi
  obtain ⟨hY, hrow⟩ := hslice i hi
  rw [sum_map_zip _ ([] : List ℤ), List.length_tail, hY,
    Nat.min_eq_right (Nat.sub_le _ _)]
  refine Finset.sum_congr rfl fun r hr => ?_
  rw [Finset.mem_range] at hr
  unfold matchCount
  rw [sum_map_zip _ (0 : ℤ), getD_tail, hrow r (by omega), hrow (r + 1) (by omega),
    Nat.min_self]
  refine Finset.sum_congr rfl fun c _ => ?_
  rfl

theorem zContact_eq (v : Vol) (Z Y X : ℕ) (h : IsRect v Z Y X) (l1 l2 : ℤ) :
    zContact l1 l2 v
      = ∑ i in Finset.range (Z - 1), ∑ r in Finset.range Y, ∑ c in Finset.range X,
          indPair l1 l2 (vox v i r c, vox v (i + 1) r c) := by
  obtain ⟨hZ, hslice⟩ := h
  unfold zContact
  rw [sum_map_zip _ ([] : Slice), List.length_tail, hZ,
    Nat.min_eq_right (Nat.sub_le _ _)]
  refine Finset.sum_congr rfl fun i hi => ?_
  rw [Finset.mem_range] at hi
  rw [getD_tail]
  obtain ⟨hY, hrow⟩ := hslice i (by omega)
  obtain ⟨hY', hrow'⟩ := hslice (i + 1) (by omega)
  rw [sum_map_zip _ ([] : List ℤ), hY, hY', Nat.min_self]
  refine Finset.sum_congr rfl fun r hr => ?_
  rw [Finset.mem_range] at hr
  unfold matchCount
  rw [sum_map_zip _ (0 : ℤ), hrow r hr, hrow' r hr, Nat.min_self]
  refine Finset.sum_congr rfl fun c _ => ?_
  rfl

theorem contact_area_eq (v : Vol) (Z Y X : ℕ) (h : IsRect v Z Y X) (a b : ℤ)
    (ha : labelInHist (volVals v) a = true) (hb : labelInHist (volVals v) b = true) :
    contact_area v a b = .ok (specForward v Z Y X a b + specForward v Z Y X b a) := by
  have hstep : contact_area v a b
      = .ok (xContact a b v + xContact b a v + yContact a b v + yContact b a v
             + zContact a b v + zContact b a v) := by
    unfold contact_area
    rw [ha, hb]
    rfl
  rw [hstep]
  refine congrArg Except.ok ?_
  rw [xContact_eq v Z Y X h a b, xContact_eq v Z Y X h b a,
    yContact_eq v Z Y X h a b, yContact_eq v Z Y X h b a,
    zContact_eq v Z Y X h a b, zContact_eq v Z Y X h b a]
  unfold specForward
  ring

/-! # Claim theorems -/

/-- Claim C1: for every rectangular 3D volume and labels `a`, `b` present
in it, `contact_area` returns exactly the number of within-bounds
axis-adjacent voxel pairs whose first voxel carries one label and whose
forward neighbour along +X, +Y or +Z carries the other, summed over both
label orders, with the compared index range shrunk by one along the
shifted axis (no wraparound, no padding); and on the 5×5×5 cube that is
all 1 except one full boundary face of 0, `contact_area(cube, 0, 1)`
is 25. -/
theorem contact_area_counts_forward_pairs (v : Vol) (Z Y X : ℕ) (a b : ℤ)
    (hrect : IsRect v Z Y X) (ha : a ∈ volVals v) (hb : b ∈ volVals v) :
    contact_area v a b = .ok (specForward v Z Y X a b + specForward v Z Y X b a) ∧
    contact_area boundaryFaceCube 0 1 = .ok 25 :=
  ⟨contact_area_eq v Z Y X hrect a b (labelInHist_of_mem ha) (labelInHist_of_mem hb),
   by set_option maxRecDepth 8000 in decide⟩

/-- Witness for C1 at a concrete 1×2×2 volume with labels 0 and 1. -/
theorem contact_area_counts_forward_pairs_witness :
    IsRect [[[(0 : ℤ), 1], [1, 1]]] 1 2 2 ∧
    (0 : ℤ) ∈ volVals [[[(0 : ℤ), 1], [1, 1]]] ∧
    (1 : ℤ) ∈ volVals [[[(0 : ℤ), 1], [1, 1]]] ∧
    (contact_area [[[(0 : ℤ), 1], [1, 1]]] 0 1
        = .ok (specForward [[[(0 : ℤ), 1], [1, 1]]] 1 2 2 0 1
               + specForward [[[(0 : ℤ), 1], [1, 1]]] 1 2 2 1 0) ∧
      contact_area boundaryFaceCube 0 1 = .ok 25) :=
  ⟨by decide, by decide, by decide,
   contact_area_counts_forward_pairs [[[(0 : ℤ), 1], [1, 1]]] 1 2 2 0 1
     (by decide) (by decide) (by decide)⟩

/-- Claim C6: contact counting is symmetric in its two label arguments,
for the 3D counter and for the 2D layer counter alike (the error branch
is symmetric as well). -/
theorem contact_area_symm :
    (∀ (v : Vol) (a b : ℤ), contact_area v a b = contact_area v b a) ∧
    (∀ (s : Slice) (a b : ℤ), contact_area_layer s a b = contact_area_layer s b a) := by
  constructor
  · intro v a b
    unfold contact_area
    rw [Bool.and_comm]
    by_cases hc : (labelInHist (volVals v) b && labelInHist (volVals v) a) = true
    · rw [if_pos hc, if_pos hc]
      exact congrArg Except.ok (by ring)
    · rw [if_neg hc, if_neg hc]
  · intro s a b
    unfold contact_area_layer
    rw [Bool.and_comm]
    by_cases hc : (labelInHist (sliceVals s) b && labelInHist (sliceVals s) a) = true
    · rw [if_pos hc, if_pos hc]
      exact congrArg Except.ok (by ring)
    · rw [if_neg hc, if_neg hc]

/-- Counterexample to claim C7 as stated: label 1 is absent from the
observed value set of the volume `[[[0, 2]]]`, yet `contact_area` does not
raise — it returns 0 — because the histogram membership test checks the
dense bin-center range `[min, max]`, not the observed values. -/
theorem contact_area_absent_label_no_error :
    contact_area [[[(0 : ℤ), 2]]] 1 2 = .ok 0 ∧ (1 : ℤ) ∉ volVals [[[(0 : ℤ), 2]]] :=
  ⟨rfl, by decide⟩

/-- Claim C7 (amended): `contact_area` and `contact_area_layer` raise the
invalid-label error iff at least one requested label lies outside the
inclusive `[min, max]` range of the volume's values (the histogram's
bin-center range); when both labels lie within that range they return a
count without raising. -/
theorem contact_area_error_iff :
    (∀ (v : Vol) (l1 l2 : ℤ),
      ((∃ e, contact_area v l1 l2 = .error e)
        ↔ ¬(inBinRange (volVals v) l1 ∧ inBinRange (volVals v) l2)) ∧
      (inBinRange (volVals v) l1 → inBinRange (volVals v) l2 →
        ∃ n, contact_area v l1 l2 = .ok n)) ∧
    (∀ (s : Slice) (l1 l2 : ℤ),
      ((∃ e, contact_area_layer s l1 l2 = .error e)
        ↔ ¬(inBinRange (sliceVals s) l1 ∧ inBinRange (sliceVals s) l2)) ∧
      (inBinRange (sliceVals s) l1 → inBinRange (sliceVals s) l2 →
        ∃ n, contact_area_layer s l1 l2 = .ok n)) := by
  constructor
  · intro v l1 l2
    simp only [← labelInHist_iff]
    cases h1 : labelInHist (volVals v) l1 <;> cases h2 : labelInHist (volVals v) l2 <;>
      simp [contact_area, h1, h2]
  · intro s l1 l2
    simp only [← labelInHist_iff]
    cases h1 : labelInHist (sliceVals s) l1 <;> cases h2 : labelInHist (sliceVals s) l2 <;>
      simp [contact_area_layer, h1, h2]

/-- Witness for C7 (amended) at concrete volumes: both labels in range
gives a count, an out-of-range label gives the error. -/
theorem contact_area_error_iff_witness :
    inBinRange (volVals [[[(0 : ℤ), 2]]]) 1 ∧ inBinRange (volVals [[[(0 : ℤ), 2]]]) 2 ∧
    (∃ n, contact_area [[[(0 : ℤ), 2]]] 1 2 = .ok n) ∧
    ∃ e, contact_area [[[(3 : ℤ)]]] 0 3 = .error e :=
  ⟨by decide, by decide,
   (contact_area_error_iff.1 [[[(0 : ℤ), 2]]] 1 2).2 (by decide) (by decide),
   (contact_area_error_iff.1 [[[(3 : ℤ)]]] 0 3).1.mpr (by decide)⟩

/-- Claim C10: on a rectangular volume, `contact_area(V, a, a)` is twice
the number of distinct axis-adjacent voxel pairs whose two voxels both
carry `a`, because the two label-order comparisons coincide when the
labels are equal. -/
theorem contact_area_same_label_doubles (v : Vol) (Z Y X : ℕ) (a : ℤ)
    (hrect : IsRect v Z Y X) (ha : a ∈ volVals v) :
    contact_area v a a = .ok (2 * specForward v Z Y X a a) := by
  rw [contact_area_eq v Z Y X hrect a a (labelInHist_of_mem ha) (labelInHist_of_mem ha)]
  exact congrArg Except.ok (two_mul _).symm

/-- Witness for C10 at a concrete 1×2×2 volume. -/
theorem contact_area_same_label_doubles_witness :
    IsRect [[[(0 : ℤ), 1], [1, 1]]] 1 2 2 ∧ (1 : ℤ) ∈ volVals [[[(0 : ℤ), 1], [1, 1]]] ∧
    contact_area [[[(0 : ℤ), 1], [1, 1]]] 1 1
      = .ok (2 * specForward [[[(0 : ℤ), 1], [1, 1]]] 1 2 2 1 1) :=
  ⟨by decide, by decide,
   contact_area_same_label_doubles [[[(0 : ℤ), 1], [1, 1]]] 1 2 2 1 (by decide) (by decide)⟩

/-- Claim C4 evaluated at its failing input: for a volume with values
`{0}`, looking up the absent label 5 crashes the positional histogram
lookup instead of returning 0 (an IndexError in numpy, modelled as an
error); for an absent label inside the value range (label 1 in a volume
with values `{0, 2}`) the count 0 is returned as the claim states. -/
theorem count_voxels_absent_label :
    count_voxels_per_label [[[(0 : ℤ)]]] 5
        = .error "IndexError: label not among histogram bin centers" ∧
    count_voxels_per_label [[[(0 : ℤ), 2]]] 1 = .ok 0 :=
  ⟨rfl, rfl⟩

/-! ## ROI masking lemmas -/

theorem enum_map_getElem? {α β : Type _} (l : List α) (f : ℕ × α → β) (i : ℕ) :
    (l.enum.map f)[i]? = l[i]?.map (fun a => f (i, a)) := by
  simp only [List.enum, List.getElem?_map, List.getElem?_enumFrom, Nat.zero_add,
    Option.map_map]
  cases l[i]? <;> rfl

theorem maskRow_getElem? (inc : ℕ → Bool) (fill : ℤ) (row : List ℤ) (c : ℕ) :
    (maskRow inc fill row)[c]? = row[c]?.map (fun w => if inc c then w else fill) := by
  unfold maskRow
  rw [enum_map_getElem?]

theorem maskSlice_getElem? (rs : Slice) (m fill : ℤ) (s : Slice) (r : ℕ) :
    (maskSlice rs m fill s)[r]? = s[r]?.map (maskRow (roiIncluded rs m r) fill) := by
  unfold maskSlice
  rw [enum_map_getElem?]

theorem create_roi_mask_getElem? (ref tgt : Vol) (roi px : ℚ) (fill : ℤ)
    (is : ℕ × ℕ) (i : ℕ) :
    (create_roi_mask ref tgt roi px fill is)[i]?
      = tgt[i]?.map (maskSlice (ref.getD i []) (pyRound (roi / px)) fill) := by
  unfold create_roi_mask maskVol
  rw [enum_map_getElem?]

theorem maskRow_idem (inc : ℕ → Bool) (fill : ℤ) (row : List ℤ) :
    maskRow inc fill (maskRow inc fill row) = maskRow inc fill row := by
  apply List.ext_getElem?
  intro c
  rw [maskRow_getElem?, maskRow_getElem?]
  cases row[c]? with
  | none => rfl
  | some w =>
      by_cases h : inc c = true <;> simp [h]

theorem maskSlice_idem (rs : Slice) (m fill : ℤ) (s : Slice) :
    maskSlice rs m fill (maskSlice rs m fill s) = maskSlice rs m fill s := by
  apply List.ext_getElem?
  intro r
  rw [maskSlice_getElem?, maskSlice_getElem?]
  cases s[r]? with
  | none => rfl
  | some row => simp [maskRow_idem]

theorem mem_posCells_iff (s : Slice) (p : ℕ × ℕ) :
    p ∈ posCells s
      ↔ ∃ row, s[p.1]? = some row ∧ ∃ w, row[p.2]? = some w ∧ 0 < w := by
  unfold posCells
  simp only [List.mem_flatten, List.mem_map]
  constructor
  · rintro ⟨inner, ⟨⟨r, row⟩, hmem, rfl⟩, hp⟩
    rw [List.mem_filterMap] at hp
    obtain ⟨⟨c, w⟩, hcw, heq⟩ := hp
    by_cases h0 : (0 : ℤ) < w
    · rw [if_pos h0] at heq
      obtain rfl := Option.some.inj heq
      exact ⟨row, List.mk_mem_enum_iff_getElem?.mp hmem,
             w, List.mk_mem_enum_iff_getElem?.mp hcw, h0⟩
    · rw [if_neg h0] at heq
      exact absurd heq (by simp)
  · rintro ⟨row, hrow, w, hw, h0⟩
    refine ⟨(row.enum.filterMap fun cv =>
        if 0 < cv.2 then some (p.1, cv.1) else none), ⟨(p.1, row), ?_, rfl⟩, ?_⟩
    · exact List.mk_mem_enum_iff_getElem?.mpr hrow
    · rw [List.mem_filterMap]
      exact ⟨(p.2, w), List.mk_mem_enum_iff_getElem?.mpr hw, by rw [if_pos h0]⟩

theorem isqrtGo_spec (n : ℕ) : ∀ fuel acc, acc * acc ≤ n → n ≤ acc + fuel →
    isqrtGo n fuel acc * isqrtGo n fuel acc ≤ n ∧
      n < (isqrtGo n fuel acc + 1) * (isqrtGo n fuel acc + 1) := by
  intro fuel
  induction fuel with
  | zero =>
      intro acc h1 h2
      unfold isqrtGo
      exact ⟨h1, by nlinarith⟩
  | succ fuel ih =>
      intro acc h1 h2
      unfold isqrtGo
      by_cases h : (acc + 1) * (acc + 1) ≤ n
      · rw [if_pos h]
        exact ih (acc + 1) h (by omega)
      · rw [if_neg h]
        exact ⟨h1, by omega⟩

theorem isqrt_eq_sqrt (n : ℕ) : isqrt n = Nat.sqrt n :=
  Nat.eq_sqrt.mpr (isqrtGo_spec n n 0 (by omega) (by omega))

theorem sqCellDist_cast (r c r' c' : ℕ) :
    (sqCellDist (r, c) (r', c') : ℤ)
      = ((r : ℤ) - r') ^ 2 + ((c : ℤ) - c') ^ 2 := by
  unfold sqCellDist
  rw [Int.toNat_of_nonneg
    (add_nonneg (mul_self_nonneg _) (mul_self_nonneg _))]
  ring

theorem sqCellDist_bound (r c r' c' Y X : ℕ)
    (hr : r < Y) (hc : c < X) (hr' : r' < Y) (hc' : c' < X) :
    sqCellDist (r, c) (r', c') ≤ (Y - 1) ^ 2 + (X - 1) ^ 2 := by
  have h1 : ((r : ℤ) - r') ^ 2 ≤ ((Y : ℤ) - 1) ^ 2 := by
    apply sq_le_sq'
    · omega
    · omega
  have h2 : ((c : ℤ) - c') ^ 2 ≤ ((X : ℤ) - 1) ^ 2 := by
    apply sq_le_sq'
    · omega
    · omega
  have hY : (1 : ℕ) ≤ Y := by omega
  have hX : (1 : ℕ) ≤ X := by omega
  have hcast : (((Y - 1) ^ 2 + (X - 1) ^ 2 : ℕ) : ℤ)
      = ((Y : ℤ) - 1) ^ 2 + ((X : ℤ) - 1) ^ 2 := by
    push_cast [Nat.cast_sub hY, Nat.cast_sub hX]
    ring
  unfold sqCellDist
  rw [Int.toNat_le, hcast]
  calc ((r : ℤ) - r') * ((r : ℤ) - r') + ((c : ℤ) - c') * ((c : ℤ) - c')
      = ((r : ℤ) - r') ^ 2 + ((c : ℤ) - c') ^ 2 := by ring
  _ ≤ ((Y : ℤ) - 1) ^ 2 + ((X : ℤ) - 1) ^ 2 := add_le_add h1 h2

theorem lt_length_of_getElem?_eq_some {α : Type _} {l : List α} {n : ℕ} {a : α}
    (h : l[n]? = some a) : n < l.length := by
  by_contra hn
  rw [List.getElem?_eq_none (by omega)] at h
  cases h

theorem roiIncluded_iff (s : Slice) (m : ℤ) (r c Y X : ℕ)
    (hlen : s.length ≤ Y) (hrows : ∀ row ∈ s, row.length ≤ X)
    (hr : r < Y) (hc : c < X)
    (hpos : posCells s ≠ [])
    (hbound : (Y - 1) ^ 2 + (X - 1) ^ 2 < 65536 ^ 2) :
    roiIncluded s m r c = true ↔ specInROI s m r c := by
  have hne : ((posCells s).map (fun p => sqCellDist (r, c) p)) ≠ [] := by
    simpa using hpos
  obtain ⟨d, hd, hdmem, hdle⟩ := min?_spec hne
  have hcell_bound : ∀ x ∈ (posCells s).map (fun p => sqCellDist (r, c) p),
      x ≤ (Y - 1) ^ 2 + (X - 1) ^ 2 := by
    intro x hx
    rw [List.mem_map] at hx
    obtain ⟨⟨r', c'⟩, hpmem, rfl⟩ := hx
    obtain ⟨row, hrow, w, hw, _⟩ := (mem_posCells_iff s (r', c')).mp hpmem
    have hr' : r' < Y := lt_of_lt_of_le (lt_length_of_getElem?_eq_some hrow) hlen
    have hc' : c' < X :=
      lt_of_lt_of_le (lt_length_of_getElem?_eq_some hw)
        (hrows row (List.getElem?_mem hrow))
    exact sqCellDist_bound r c r' c' Y X hr hc hr' hc'
  have hdbound : d < 65536 ^ 2 := lt_of_le_of_lt (hcell_bound d hdmem) hbound
  have hmod : Nat.sqrt d % 65536 = Nat.sqrt d :=
    Nat.mod_eq_of_lt (Nat.sqrt_lt'.mpr hdbound)
  have hroi : roiIncluded s m r c = decide (((Nat.sqrt d : ℕ) : ℤ) < m) := by
    unfold roiIncluded
    rw [hd]
    show decide (((isqrt d % 65536 : ℕ) : ℤ) < m) = _
    rw [isqrt_eq_sqrt, hmod]
  rw [hroi]
  obtain ⟨⟨pr, pc⟩, hp0mem, hp0d⟩ := List.mem_map.mp hdmem
  constructor
  · intro h
    have hlt : ((Nat.sqrt d : ℕ) : ℤ) < m := of_decide_eq_true h
    have hm0 : (0 : ℤ) < m := lt_of_le_of_lt (Int.ofNat_nonneg _) hlt
    have hmnat : Nat.sqrt d < m.toNat := by
      rw [← Int.toNat_of_nonneg hm0.le] at hlt
      exact_mod_cast hlt
    have hdm : d < m.toNat ^ 2 := Nat.sqrt_lt'.mp hmnat
    obtain ⟨row, hrow, w, hw, hwpos⟩ := (mem_posCells_iff s (pr, pc)).mp hp0mem
    refine ⟨hm0, pr, pc, row, w, hrow, hw, hwpos, ?_⟩
    rw [← sqCellDist_cast, hp0d]
    calc (d : ℤ) < ((m.toNat : ℤ)) ^ 2 := by exact_mod_cast hdm
    _ = m ^ 2 := by rw [Int.toNat_of_nonneg hm0.le]
  · rintro ⟨hm0, r', c', row, w, hrow, hw, hwpos, hdist⟩
    have hpmem : (r', c') ∈ posCells s :=
      (mem_posCells_iff s (r', c')).mpr ⟨row, hrow, w, hw, hwpos⟩
    have hxmem : sqCellDist (r, c) (r', c')
        ∈ (posCells s).map (fun p => sqCellDist (r, c) p) :=
      List.mem_map_of_mem _ hpmem
    have hxlt : sqCellDist (r, c) (r', c') < m.toNat ^ 2 := by
      have hz : (sqCellDist (r, c) (r', c') : ℤ) < m ^ 2 := by
        rw [sqCellDist_cast]; exact hdist
      rw [← Int.toNat_of_nonneg hm0.le] at hz
      exact_mod_cast hz
    have hsq : Nat.sqrt d < m.toNat :=
      Nat.sqrt_lt'.mpr (lt_of_le_of_lt (hdle _ hxmem) hxlt)
    apply decide_eq_true
    calc ((Nat.sqrt d : ℕ) : ℤ) < (m.toNat : ℤ) := by exact_mod_cast hsq
    _ = m := Int.toNat_of_nonneg hm0.le

/-- Claim C8: ROI masking is idempotent in value — re-applying
`create_roi_mask` with the same reference stack, radius, pixel size and
fill label to an already-masked target gives the once-masked volume
(the inclusion decision depends only on the reference). -/
theorem create_roi_mask_idem (ref tgt : Vol) (roi px : ℚ) (fill : ℤ) (is : ℕ × ℕ) :
    create_roi_mask ref (create_roi_mask ref tgt roi px fill is) roi px fill is
      = create_roi_mask ref tgt roi px fill is := by
  apply List.ext_getElem?
  intro i
  rw [create_roi_mask_getElem?, create_roi_mask_getElem?]
  cases tgt[i]? with
  | none => rfl
  | some s => simp [maskSlice_idem]

theorem maskRow_length (inc : ℕ → Bool) (fill : ℤ) (row : List ℤ) :
    (maskRow inc fill row).length = row.length := by
  simp [maskRow, List.enum]

theorem maskSlice_length (rs : Slice) (m fill : ℤ) (s : Slice) :
    (maskSlice rs m fill s).length = s.length := by
  simp [maskSlice, List.enum]

theorem getElem?_eq_some_getD {α : Type _} (l : List α) (d : α) {i : ℕ}
    (h : i < l.length) : l[i]? = some (l.getD i d) := by
  rw [List.getElem?_eq_getElem h, List.getD_eq_getElem _ _ h]

theorem vox_create_roi_mask (ref tgt : Vol) (roi px : ℚ) (fill : ℤ) (is : ℕ × ℕ)
    (i r c : ℕ) (hi : i < tgt.length) (hr : r < (tgt.getD i []).length)
    (hc : c < ((tgt.getD i []).getD r []).length) :
    vox (create_roi_mask ref tgt roi px fill is) i r c
      = if roiIncluded (ref.getD i []) (pyRound (roi / px)) r c
        then vox tgt i r c else fill := by
  have e1 : (create_roi_mask ref tgt roi px fill is).getD i []
      = maskSlice (ref.getD i []) (pyRound (roi / px)) fill (tgt.getD i []) := by
    rw [List.getD_eq_getElem?_getD, create_roi_mask_getElem?,
      getElem?_eq_some_getD tgt [] hi]
    rfl
  have e2 : (maskSlice (ref.getD i []) (pyRound (roi / px)) fill
        (tgt.getD i [])).getD r []
      = maskRow (roiIncluded (ref.getD i []) (pyRound (roi / px)) r) fill
          ((tgt.getD i []).getD r []) := by
    rw [List.getD_eq_getElem?_getD, maskSlice_getElem?,
      getElem?_eq_some_getD _ [] hr]
    rfl
  have e3 : (maskRow (roiIncluded (ref.getD i []) (pyRound (roi / px)) r) fill
        ((tgt.getD i []).getD r [])).getD c 0
      = if roiIncluded (ref.getD i []) (pyRound (roi / px)) r c
        then ((tgt.getD i []).getD r []).getD c 0 else fill := by
    rw [List.getD_eq_getElem?_getD, maskRow_getElem?,
      getElem?_eq_some_getD _ 0 hc]
    rfl
  unfold vox
  rw [e1, e2, e3]

theorem create_roi_mask_rect (ref tgt : Vol) (roi px : ℚ) (fill : ℤ) (is : ℕ × ℕ)
    (Z Y X : ℕ) (htgt : IsRect tgt Z Y X) :
    IsRect (create_roi_mask ref tgt roi px fill is) Z Y X := by
  obtain ⟨hZ, hsl⟩ := htgt
  constructor
  · simpa [create_roi_mask, maskVol, List.enum] using hZ
  · intro i hi
    obtain ⟨hY, hrowlen⟩ := hsl i hi
    have hi' : i < tgt.length := by omega
    have hslice : (create_roi_mask ref tgt roi px fill is).getD i []
        = maskSlice (ref.getD i []) (pyRound (roi / px)) fill (tgt.getD i []) := by
      rw [List.getD_eq_getElem?_getD, create_roi_mask_getElem?,
        getElem?_eq_some_getD tgt [] hi']
      rfl
    rw [hslice]
    constructor
    · rw [maskSlice_length, hY]
    · intro r hrY
      have hr' : r < (tgt.getD i []).length := by rw [hY]; exact hrY
      have hrow : (maskSlice (ref.getD i []) (pyRound (roi / px)) fill
            (tgt.getD i [])).getD r []
          = maskRow (roiIncluded (ref.getD i []) (pyRound (roi / px)) r) fill
              ((tgt.getD i []).getD r []) := by
        rw [List.getD_eq_getElem?_getD, maskSlice_getElem?,
          getElem?_eq_some_getD _ [] hr']
        rfl
      rw [hrow, maskRow_length]
      exact hrowlen r hrY

/-- Claim C2: for shape-congruent rectangular reference and target stacks
whose slices all contain a positive reference pixel and fit the `uint16`
distance buffer, `create_roi_mask` keeps exactly the voxels whose
slice-wise 2D Euclidean distance to the nearest positive voxel of the
corresponding reference slice is strictly below
`round(roi_size / pixel_size)`, and overwrites every other voxel with the
fill label; the output stack has the target's shape. -/
theorem roi_mask_matches_euclidean_spec (ref tgt : Vol) (roi px : ℚ) (fill : ℤ)
    (Z Y X : ℕ) (href : IsRect ref Z Y X) (htgt : IsRect tgt Z Y X)
    (hpos : ∀ i, i < Z → posCells (ref.getD i []) ≠ [])
    (hbound : (Y - 1) ^ 2 + (X - 1) ^ 2 < 65536 ^ 2) :
    IsRect (create_roi_mask ref tgt roi px fill (Y, X)) Z Y X ∧
    ∀ i, i < Z → ∀ r, r < Y → ∀ c, c < X →
      (specInROI (ref.getD i []) (pyRound (roi / px)) r c →
        vox (create_roi_mask ref tgt roi px fill (Y, X)) i r c = vox tgt i r c) ∧
      (¬ specInROI (ref.getD i []) (pyRound (roi / px)) r c →
        vox (create_roi_mask ref tgt roi px fill (Y, X)) i r c = fill) := by
  refine ⟨create_roi_mask_rect ref tgt roi px fill (Y, X) Z Y X htgt, ?_⟩
  obtain ⟨hZt, hslt⟩ := htgt
  obtain ⟨hZr, hslr⟩ := href
  intro i hi r hr c hc
  have hi' : i < tgt.length := by omega
  obtain ⟨hYt, hrowt⟩ := hslt i hi
  have hr' : r < (tgt.getD i []).length := by rw [hYt]; exact hr
  have hc' : c < ((tgt.getD i []).getD r []).length := by rw [hrowt r hr]; exact hc
  have hvox := vox_create_roi_mask ref tgt roi px fill (Y, X) i r c hi' hr' hc'
  obtain ⟨hYr, hrowr⟩ := hslr i hi
  have hrows : ∀ row ∈ ref.getD i [], row.length ≤ X := by
    intro row hrowmem
    obtain ⟨j, hj⟩ := List.mem_iff_getElem?.mp hrowmem
    have hjY : j < Y := by
      have := lt_length_of_getElem?_eq_some hj
      omega
    have hjrow : (ref.getD i []).getD j [] = row := by
      rw [List.getD_eq_getElem?_getD, hj]
      rfl
    rw [← hjrow]
    exact le_of_eq (hrowr j hjY)
  have hiff := roiIncluded_iff (ref.getD i []) (pyRound (roi / px)) r c Y X
    (le_of_eq hYr) hrows hr hc (hpos i hi) hbound
  constructor
  · intro hspec
    rw [hvox, if_pos (hiff.mpr hspec)]
  · intro hspec
    rw [hvox, if_neg (fun h => hspec (hiff.mp h))]

/-! ## Sample-level lemmas -/

theorem bvtvMasked_eq (s : Sample) (roi : ℚ) (m : ℤ)
    (hm : pyRound (roi / s.pixel_size) = m) :
    bvtvMasked s roi = maskVol s.ref_image s.target_image m s.label_dict.screw := by
  unfold bvtvMasked create_roi_mask
  rw [hm]

theorem getD_map_range {β : Type _} (n k : ℕ) (f : ℕ → β) (d : β) (h : k < n) :
    ((List.range n).map f).getD k d = f k := by
  rw [List.getD_eq_getElem?_getD, List.getElem?_map, List.getElem?_range h]
  rfl

/-- Claim C3 refuted at a concrete sample / claim C3's failing input:
`get_bone_volume_to_total_volume` passes `self.target_image` into the
in-place `create_roi_mask`, so the sample's own target volume changes
(out-of-ROI voxels become the screw label), while — because ROI masking
is idempotent — a second call with the same argument still returns the
same value. -/
theorem bvtv_mutates_sample_state :
    (get_bone_volume_to_total_volume sampleMut 1).2.target_image
        ≠ sampleMut.target_image ∧
    (get_bone_volume_to_total_volume ((get_bone_volume_to_total_volume sampleMut 1).2) 1).1
      = (get_bone_volume_to_total_volume sampleMut 1).1 := by
  have hm1 : bvtvMasked sampleMut 1 = [[[3, 1, 1]]] := by
    rw [bvtvMasked_eq sampleMut 1 1 (by norm_num [pyRound, sampleMut])]
    decide
  constructor
  · show bvtvMasked sampleMut 1 ≠ sampleMut.target_image
    rw [hm1]
    decide
  · have hs' : (get_bone_volume_to_total_volume sampleMut 1).2
        = { sampleMut with target_image := [[[3, 1, 1]]] } := by
      show { sampleMut with target_image := bvtvMasked sampleMut 1 } = _
      rw [hm1]
    have hm2 : bvtvMasked { sampleMut with target_image := [[[3, 1, 1]]] } 1
        = [[[3, 1, 1]]] := by
      rw [bvtvMasked_eq _ 1 1 (by norm_num [pyRound, sampleMut])]
      decide
    calc (get_bone_volume_to_total_volume ((get_bone_volume_to_total_volume sampleMut 1).2) 1).1
        = bvtvRatio (bvtvMasked ((get_bone_volume_to_total_volume sampleMut 1).2) 1)
            ((get_bone_volume_to_total_volume sampleMut 1).2.label_dict) := rfl
    _ = bvtvRatio [[[3, 1, 1]]] stdLabels := by rw [hs', hm2]; rfl
    _ = bvtvRatio (bvtvMasked sampleMut 1) sampleMut.label_dict := by rw [hm1]; rfl
    _ = (get_bone_volume_to_total_volume sampleMut 1).1 := rfl

/-- Claim C5 refuted at a concrete sample / claim C5's failing input: with
labels `background = 3`, `bone = 4` and masked values `{0, 5}`, both
positional histogram lookups return 0, and `get_bone_volume_to_total_volume`
silently produces the NaN of a numpy zero-by-zero division (modelled as
`Except.ok none`) instead of raising an error. -/
theorem bvtv_zero_denominator_yields_nan :
    (get_bone_volume_to_total_volume sampleNaN 1).1 = .ok none := by
  have hm : bvtvMasked sampleNaN 1 = [[[0, 5]]] := by
    rw [bvtvMasked_eq sampleNaN 1 1 (by norm_num [pyRound, sampleNaN])]
    decide
  show bvtvRatio (bvtvMasked sampleNaN 1) sampleNaN.label_dict = .ok none
  rw [hm]
  decide

/-- Claim C9: `get_bone_volume_to_total_volume` reads `v_bone` and the
background count by positional indexing of the histogram count array with
the raw label codes.  When the masked stack's smallest value is 0 (and
both codes index an existing bin, with a nonzero total) the returned
ratio is `count(bone) / (count(bone) + count(background))`; but on the
concrete `sampleShifted`, whose masked stack has minimum value 1, the
lookups read the bins of values `bone + 1` and `background + 1` and the
returned ratio 1/2 differs from that reference value 1. -/
theorem bvtv_positional_histogram (s : Sample) (roi : ℚ) (mx : ℤ)
    (hmin : (volVals (bvtvMasked s roi)).min? = some 0)
    (hmax : (volVals (bvtvMasked s roi)).max? = some mx)
    (hb0 : 0 ≤ s.label_dict.bone) (hb1 : s.label_dict.bone ≤ mx)
    (hg0 : 0 ≤ s.label_dict.background) (hg1 : s.label_dict.background ≤ mx)
    (hnz : (volVals (bvtvMasked s roi)).count s.label_dict.bone
           + (volVals (bvtvMasked s roi)).count s.label_dict.background ≠ 0) :
    (get_bone_volume_to_total_volume s roi).1
      = .ok (some (((volVals (bvtvMasked s roi)).count s.label_dict.bone : ℚ)
          / (((volVals (bvtvMasked s roi)).count s.label_dict.bone
              + (volVals (bvtvMasked s roi)).count s.label_dict.background : ℕ) : ℚ))) ∧
    (get_bone_volume_to_total_volume sampleShifted 1).1 = .ok (some ((1 : ℚ) / 2)) ∧
    ((volVals (bvtvMasked sampleShifted 1)).count sampleShifted.label_dict.bone : ℚ)
        / (((volVals (bvtvMasked sampleShifted 1)).count sampleShifted.label_dict.bone
            + (volVals (bvtvMasked sampleShifted 1)).count
                sampleShifted.label_dict.background : ℕ) : ℚ) = 1 ∧
    ((1 : ℚ) / 2) ≠ 1 := by
  have hmask : bvtvMasked sampleShifted 1 = [[[1, 2, 3, 4, 5]]] := by
    rw [bvtvMasked_eq sampleShifted 1 1 (by norm_num [pyRound, sampleShifted])]
    decide
  refine ⟨?_, ?_, ?_, by norm_num⟩
  · have hmx0 : (0 : ℤ) ≤ mx := le_trans hb0 hb1
    have hmxcast : ((mx.toNat : ℤ)) = mx := Int.toNat_of_nonneg hmx0
    set vals := volVals (bvtvMasked s roi) with hvals
    set cts := (List.range (mx.toNat + 1)).map
        (fun k : ℕ => vals.count ((0 : ℤ) + (k : ℤ))) with hcts
    have hcounts : histCounts vals = some (0, cts) := by
      unfold histCounts histRange
      rw [hmin, hmax]
      simp [hcts]
    have hlen : cts.length = mx.toNat + 1 := by simp [hcts]
    have hpb : pyIndex cts s.label_dict.bone = .ok (vals.count s.label_dict.bone) := by
      unfold pyIndex
      rw [if_pos ⟨hb0, by rw [hlen]; push_cast; omega⟩, hcts,
        getD_map_range _ _ _ _ (by omega)]
      congr 1
      rw [zero_add, Int.toNat_of_nonneg hb0]
    have hpg : pyIndex cts s.label_dict.background
        = .ok (vals.count s.label_dict.background) := by
      unfold pyIndex
      rw [if_pos ⟨hg0, by rw [hlen]; push_cast; omega⟩, hcts,
        getD_map_range _ _ _ _ (by omega)]
      congr 1
      rw [zero_add, Int.toNat_of_nonneg hg0]
    show bvtvRatio (bvtvMasked s roi) s.label_dict = _
    unfold bvtvRatio
    simp only [← hvals, hcounts, hpb, hpg, bind, Except.bind]
    rw [if_neg hnz]
    rfl
  · have h1 : (get_bone_volume_to_total_volume sampleShifted 1).1
        = bvtvRatio [[[1, 2, 3, 4, 5]]] stdLabels := by
      show bvtvRatio (bvtvMasked sampleShifted 1) sampleShifted.label_dict = _
      rw [hmask]
      rfl
    have h2 : bvtvRatio [[[(1 : ℤ), 2, 3, 4, 5]]] stdLabels
        = .ok (some (((1 : ℕ) : ℚ) / ((2 : ℕ) : ℚ))) := by
      set_option maxRecDepth 4000 in rfl
    rw [h1, h2]
    norm_num
  · have hcb : (volVals (bvtvMasked sampleShifted 1)).count
        sampleShifted.label_dict.bone = 1 := by
      rw [hmask]; decide
    have hcg : (volVals (bvtvMasked sampleShifted 1)).count
        sampleShifted.label_dict.background = 0 := by
      rw [hmask]; decide
    rw [hcb, hcg]
    norm_num

/-- Witness for C9 at `sampleAligned`, whose masked stack has minimum
value 0, bins for both labels, and a nonzero total. -/
theorem bvtv_positional_histogram_witness :
    (volVals (bvtvMasked sampleAligned 1)).min? = some 0 ∧
    (volVals (bvtvMasked sampleAligned 1)).max? = some 3 ∧
    (0 ≤ sampleAligned.label_dict.bone ∧ sampleAligned.label_dict.bone ≤ 3) ∧
    (0 ≤ sampleAligned.label_dict.background ∧
      sampleAligned.label_dict.background ≤ 3) ∧
    (volVals (bvtvMasked sampleAligned 1)).count sampleAligned.label_dict.bone
        + (volVals (bvtvMasked sampleAligned 1)).count
            sampleAligned.label_dict.background ≠ 0 ∧
    ((get_bone_volume_to_total_volume sampleAligned 1).1
      = .ok (some (((volVals (bvtvMasked sampleAligned 1)).count
            sampleAligned.label_dict.bone : ℚ)
          / (((volVals (bvtvMasked sampleAligned 1)).count
                sampleAligned.label_dict.bone
              + (volVals (bvtvMasked sampleAligned 1)).count
                  sampleAligned.label_dict.background : ℕ) : ℚ))) ∧
      (get_bone_volume_to_total_volume sampleShifted 1).1 = .ok (some ((1 : ℚ) / 2)) ∧
      ((volVals (bvtvMasked sampleShifted 1)).count sampleShifted.label_dict.bone : ℚ)
          / (((volVals (bvtvMasked sampleShifted 1)).count sampleShifted.label_dict.bone
              + (volVals (bvtvMasked sampleShifted 1)).count
                  sampleShifted.label_dict.background : ℕ) : ℚ) = 1 ∧
      ((1 : ℚ) / 2) ≠ 1) := by
  have hmask : bvtvMasked sampleAligned 1 = [[[0, 3]]] := by
    rw [bvtvMasked_eq sampleAligned 1 1 (by norm_num [pyRound, sampleAligned])]
    decide
  refine ⟨by rw [hmask]; decide, by rw [hmask]; decide, by decide, by decide,
    by rw [hmask]; decide, ?_⟩
  exact bvtv_positional_histogram sampleAligned 1 3
    (by rw [hmask]; decide) (by rw [hmask]; decide) (by decide) (by decide)
    (by decide) (by decide) (by rw [hmask]; decide)

/-- Witness for C2 at a concrete 1×1×3 pair of stacks. -/
theorem roi_mask_matches_euclidean_spec_witness :
    IsRect [[[(1 : ℤ), 0, 0]]] 1 1 3 ∧ IsRect [[[(3 : ℤ), 4, 5]]] 1 1 3 ∧
    (∀ i, i < 1 → posCells (([[[(1 : ℤ), 0, 0]]] : Vol).getD i []) ≠ []) ∧
    ((1 - 1) ^ 2 + (3 - 1) ^ 2 < 65536 ^ 2) ∧
    (IsRect (create_roi_mask [[[(1 : ℤ), 0, 0]]] [[[(3 : ℤ), 4, 5]]] 1 1 7 (1, 3)) 1 1 3 ∧
      ∀ i, i < 1 → ∀ r, r < 1 → ∀ c, c < 3 →
        (specInROI (([[[(1 : ℤ), 0, 0]]] : Vol).getD i []) (pyRound (1 / 1)) r c →
          vox (create_roi_mask [[[(1 : ℤ), 0, 0]]] [[[(3 : ℤ), 4, 5]]] 1 1 7 (1, 3)) i r c
            = vox [[[(3 : ℤ), 4, 5]]] i r c) ∧
        (¬ specInROI (([[[(1 : ℤ), 0, 0]]] : Vol).getD i []) (pyRound (1 / 1)) r c →
          vox (create_roi_mask [[[(1 : ℤ), 0, 0]]] [[[(3 : ℤ), 4, 5]]] 1 1 7 (1, 3)) i r c
            = 7)) :=
  ⟨by decide, by decide, by decide, by decide,
   roi_mask_matches_euclidean_spec [[[(1 : ℤ), 0, 0]]] [[[(3 : ℤ), 4, 5]]] 1 1 7 1 1 3
     (by decide) (by decide) (by decide) (by decide)⟩

end DegBvTv
